import Mathlib

/-!
# Verification of the rockslide registry / orchestrator / reverse proxy

A shallow embedding of the parts of the `rockslide` source that the
specification's claims are about:

* the filesystem-backed content store (`src/registry/storage.rs`):
  chunked uploads, content-addressed blobs, manifests and tag links;
* the registry upload handlers (`src/registry.rs`): `upload_add_chunk`,
  the `UploadState` response, and `ImageDigest::from_str`;
* the reverse proxy's request dispatch
  (`src/reverse_proxy.rs`: `RoutingTable::get_destination_uri_from_request`);
* the master-key auth provider (`src/config.rs`);
* volume path normalization in the orchestrator
  (`src/container_orchestrator.rs`: `VolumeDesc::from_path`).

Bytes are modelled as `List Nat`; digests as the 32-byte output of the hash,
also `List Nat`.  SHA-256 itself lives in the external `sha2` crate, and JSON
manifest validation in the external `serde_json` crate, so both enter the
model as parameters (`H : Bytes → Bytes`, `valid : Bytes → Bool`): the store
logic under verification never inspects their internals, it only calls them.
-/

namespace Rockslide

/-- Byte strings (file contents, request bodies). -/
abbrev Bytes := List Nat

/-! ## Association-list maps

The filesystem directories (`uploads/`, `blobs/`, `manifests/`, `tags/`) are
modelled as association lists keyed by upload id, digest, or tag path.
Writing/renaming a file overwrites any file of the same name, so insertion
replaces an existing binding. -/

/-- Look up a key in an association list (first binding wins). -/
def lookupA {κ α : Type} [DecidableEq κ] : List (κ × α) → κ → Option α
  | [], _ => none
  | (k₀, v₀) :: rest, k => if k₀ = k then some v₀ else lookupA rest k

/-- Remove a binding, as removing/renaming-away a file does. -/
def eraseA {κ α : Type} [DecidableEq κ] (k : κ) : List (κ × α) → List (κ × α)
  | [] => []
  | p :: rest => if p.1 = k then eraseA k rest else p :: eraseA k rest

/-- Insert (or overwrite) a binding, as a filesystem write/rename does. -/
def insertA {κ α : Type} [DecidableEq κ] (k : κ) (v : α) (l : List (κ × α)) :
    List (κ × α) :=
  (k, v) :: eraseA k l

instance {ε α : Type} [DecidableEq ε] [DecidableEq α] :
    DecidableEq (Except ε α) := fun x y =>
  match x, y with
  | .error a, .error b =>
    if h : a = b then .isTrue (by rw [h]) else .isFalse (by simp [h])
  | .error _, .ok _ => .isFalse (by simp)
  | .ok _, .error _ => .isFalse (by simp)
  | .ok a, .ok b =>
    if h : a = b then .isTrue (by rw [h]) else .isFalse (by simp [h])

/-! ## Content store state (`FilesystemStorage`)

One record per subdirectory of the store root.  An upload id is a `Nat`
standing for the UUID; a tag path is the triple
`(repository, image, tag)` under `tags/`; a tag binding holds the digest the
symlink points at (the link target is `../../../manifests/<digest>`). -/

structure FsState where
  uploads : List (Nat × Bytes)
  blobs : List (Bytes × Bytes)
  manifests : List (Bytes × Bytes)
  tags : List ((String × String × String) × Bytes)
  deriving DecidableEq, Repr

/-- The store right after `FilesystemStorage::new` created the four empty
directories. -/
def emptyStore : FsState := ⟨[], [], [], []⟩

/-- `storage::Error` (`src/registry/storage.rs`), restricted to the variants
reachable in the model; `rangeNotSupported` stands for the `anyhow!` error the
`upload_add_chunk` handler returns when a `Range` header is present. -/
inductive StorageError
  | uploadDoesNotExit
  | digestMismatch
  | invalidManifest
  | notATag
  | rangeNotSupported
  deriving DecidableEq, Repr

/-- Result of a store operation: the outcome together with the state the
filesystem is left in (error paths can still have written files). -/
structure OpOut (α : Type) where
  result : Except StorageError α
  state : FsState
  deriving DecidableEq, Repr

/-- `Reference` (`src/registry/storage.rs`): a human tag or a digest. -/
inductive Reference
  | tag (t : String)
  | digest (d : Bytes)
  deriving DecidableEq, Repr

/-- `FilesystemStorage::begin_new_upload`: create the empty partial file
`uploads/<id>.partial`.  `id` plays the role of the freshly drawn UUID. -/
def beginNewUpload (s : FsState) (id : Nat) : OpOut Nat :=
  ⟨.ok id, { s with uploads := insertA id [] s.uploads }⟩

/-- `FilesystemStorage::get_upload_writer` followed by writing `chunk`:
the partial is opened in append mode, so the bytes land at the end of the
file regardless of the seek position. -/
def getUploadWriterWrite (s : FsState) (id : Nat) (chunk : Bytes) :
    OpOut Unit :=
  match lookupA s.uploads id with
  | none => ⟨.error .uploadDoesNotExit, s⟩
  | some p => ⟨.ok (), { s with uploads := insertA id (p ++ chunk) s.uploads }⟩

/-- `FilesystemStorage::finalize_upload`: hash the whole partial with `H`
(SHA-256 in the source), compare against the expected digest; on mismatch
fail with `DigestMismatch` leaving everything in place, on match rename the
partial to `blobs/<digest>`. -/
def finalizeUpload (H : Bytes → Bytes) (s : FsState) (id : Nat) (d : Bytes) :
    OpOut Unit :=
  match lookupA s.uploads id with
  | none => ⟨.error .uploadDoesNotExit, s⟩
  | some p =>
    if H p = d then
      ⟨.ok (), { s with
        uploads := eraseA id s.uploads,
        blobs := insertA d p s.blobs }⟩
    else
      ⟨.error .digestMismatch, s⟩

/-- `FilesystemStorage::put_manifest`: validate the bytes (`valid` stands for
`serde_json::from_slice::<ImageManifest>`), write the manifest under its
computed digest, then publish the tag link — refusing with `NotATag` when the
reference is a digest.  Note the manifest file is written *before* the tag
check, exactly as in the source. -/
def putManifest (H : Bytes → Bytes) (valid : Bytes → Bool) (s : FsState)
    (repo img : String) (ref : Reference) (bytes : Bytes) : OpOut Bytes :=
  if valid bytes then
    let d := H bytes
    let s₁ := { s with manifests := insertA d bytes s.manifests }
    match ref with
    | .digest _ => ⟨.error .notATag, s₁⟩
    | .tag t => ⟨.ok d, { s₁ with tags := insertA (repo, img, t) d s₁.tags }⟩
  else
    ⟨.error .invalidManifest, s⟩

/-- `FilesystemStorage::get_manifest`: a tag resolves through the symlink to
the manifest file; a digest opens `manifests/<digest>` directly. -/
def getManifest (s : FsState) (repo img : String) (ref : Reference) :
    Option Bytes :=
  match ref with
  | .tag t => (lookupA s.tags (repo, img, t)).bind (lookupA s.manifests)
  | .digest d => lookupA s.manifests d

/-- `FilesystemStorage::get_blob_reader` (`get_blob_metadata` reads the same
file): the stored bytes, if present. -/
def getBlobReader (s : FsState) (d : Bytes) : Option Bytes :=
  lookupA s.blobs d

/-- One invocation of a `RegistryStorage` trait operation
(`src/registry/storage.rs`).  The three read operations leave the store
untouched and are carried for completeness of the invariant statement. -/
inductive StoreOp
  | opBeginNewUpload (id : Nat)
  | opWriteChunk (id : Nat) (chunk : Bytes)
  | opFinalizeUpload (id : Nat) (d : Bytes)
  | opPutManifest (repo img : String) (ref : Reference) (bytes : Bytes)
  | opGetBlobReader (d : Bytes)
  | opGetBlobMetadata (d : Bytes)
  | opGetManifest (repo img : String) (ref : Reference)
  deriving DecidableEq, Repr

/-- The state the store is left in after running one operation (successful or
not). -/
def applyOp (H : Bytes → Bytes) (valid : Bytes → Bool) (s : FsState) :
    StoreOp → FsState
  | .opBeginNewUpload id => (beginNewUpload s id).state
  | .opWriteChunk id chunk => (getUploadWriterWrite s id chunk).state
  | .opFinalizeUpload id d => (finalizeUpload H s id d).state
  | .opPutManifest repo img ref bytes =>
      (putManifest H valid s repo img ref bytes).state
  | .opGetBlobReader _ => s
  | .opGetBlobMetadata _ => s
  | .opGetManifest _ _ _ => s

/-- Digest consistency: every file `blobs/<d>` hashes to `<d>`. -/
def BlobConsistent (H : Bytes → Bytes) (s : FsState) : Prop :=
  ∀ d c, lookupA s.blobs d = some c → H c = d

/-! ## Registry protocol layer (`src/registry.rs`) -/

/-- `UploadState`, the response payload of the upload handlers. -/
structure UploadStateM where
  completed : Option Nat
  upload : Nat
  deriving DecidableEq, Repr

/-- Status code of `impl IntoResponse for UploadState`: both branches answer
202 ACCEPTED. -/
def uploadStateStatus (_ : UploadStateM) : Nat := 202

/-- The `Range` header of `impl IntoResponse for UploadState`: present only
when `completed` is set, rendered as `0-<completed>`. -/
def uploadStateRangeHeader (u : UploadStateM) : Option String :=
  u.completed.map (fun c => "0-" ++ toString c)

/-- The `upload_add_chunk` handler: reject requests carrying a `Range`
header, obtain an (append-mode) writer on the partial, stream the request
body into it, and report `completed` as the number of bytes *of this request
body* — the counter starts at zero on every PATCH. -/
def uploadAddChunk (s : FsState) (id : Nat) (hasRangeHeader : Bool)
    (body : Bytes) : OpOut UploadStateM :=
  if hasRangeHeader then ⟨.error .rangeNotSupported, s⟩
  else
    match lookupA s.uploads id with
    | none => ⟨.error .uploadDoesNotExit, s⟩
    | some p =>
      ⟨.ok ⟨some body.length, id⟩,
        { s with uploads := insertA id (p ++ body) s.uploads }⟩

/-! ## Digest wire form (`ImageDigest::from_str`, `Reference` parsing)

The Rust code checks the byte length (71), the literal `sha256:` head, and
then hex-decodes 64 digits with the `hex` crate, whose decoder accepts both
lowercase and uppercase digits.  We model strings by their character lists;
on every string the two views agree here, because a string passing the
checks is all-ASCII. -/

/-- Hex digits as accepted by the `hex` crate's byte decoder: ASCII codes
48–57 (`0-9`), 97–102 (`a-f`) and 65–70 (`A-F`). -/
def isHexDigitChar (c : Char) : Bool :=
  (48 ≤ c.toNat && c.toNat ≤ 57) || (97 ≤ c.toNat && c.toNat ≤ 102) ||
    (65 ≤ c.toNat && c.toNat ≤ 70)

/-- The `hex` crate's per-byte digit value (`val`): digits, lowercase and
uppercase letters map to 0–15, anything else is an error. -/
def hexDigitValue (c : Char) : Option Nat :=
  if 48 ≤ c.toNat && c.toNat ≤ 57 then some (c.toNat - 48)
  else if 97 ≤ c.toNat && c.toNat ≤ 102 then some (c.toNat - 87)
  else if 65 ≤ c.toNat && c.toNat ≤ 70 then some (c.toNat - 55)
  else none

/-- Decode hex digit pairs into bytes (`<[u8; 32]>::from_hex`). -/
def hexDecodePairs : List Char → Option Bytes
  | [] => some []
  | [_] => none
  | c₁ :: c₂ :: rest => do
    let hi ← hexDigitValue c₁
    let lo ← hexDigitValue c₂
    let tail ← hexDecodePairs rest
    pure ((hi * 16 + lo) :: tail)

/-- `impl FromStr for ImageDigest`: total length 71, literal `sha256:` head,
then 64 hex digits decoded to the 32 digest bytes. -/
def imageDigestFromStr (raw : String) : Option Bytes :=
  if raw.toList.length ≠ 71 then none
  else if ¬ ("sha256:".toList.isPrefixOf raw.toList) then none
  else hexDecodePairs (raw.toList.drop 7)

/-- `impl Deserialize for Reference`: a digest when `ImageDigest::from_str`
succeeds, otherwise a tag holding the raw string. -/
def referenceParse (raw : String) : Reference :=
  match imageDigestFromStr raw with
  | some d => .digest d
  | none => .tag raw

/-- Whether a parsed reference is the digest variant. -/
def referenceIsDigest : Reference → Bool
  | .digest _ => true
  | .tag _ => false

/-- The digest wire form exactly as the source accepts it: `sha256:` plus 64
hex digits in either case. -/
def digestWireForm (raw : String) : Bool :=
  raw.toList.length = 71 && "sha256:".toList.isPrefixOf raw.toList &&
    (raw.toList.drop 7).all isHexDigitChar

/-- Modelled from the spec's words (for comparison with the code): `sha256:`
followed by 64 *lowercase* hex digits. -/
def specDigestWireFormLowercase (raw : String) : Bool :=
  raw.toList.length = 71 && "sha256:".toList.isPrefixOf raw.toList &&
    (raw.toList.drop 7).all
      (fun c =>
        (48 ≤ c.toNat && c.toNat ≤ 57) || (97 ≤ c.toNat && c.toNat ≤ 102))

/-! ## Master key and authentication (`src/config.rs`, `src/registry/auth.rs`) -/

/-- `MasterKey`: no key configured (all auth fails) or a secret string. -/
inductive MasterKey
  | locked
  | key (secret : String)
  deriving DecidableEq, Repr

/-- `UnverifiedCredentials` from a parsed `Authorization: Basic` header. -/
structure Credentials where
  username : String
  password : String
  deriving DecidableEq, Repr

/-- `impl Deserialize for MasterKey`: an absent field is `Locked`; any
present string — the empty string included — becomes `Key(secret)`. -/
def masterKeyDeserialize : Option String → MasterKey
  | none => .locked
  | some s => .key s

/-- `impl AuthProvider for MasterKey`: `Locked` rejects everything; a key
compares the supplied password (constant-time in the source) against the
secret.  The username plays no part. -/
def checkCredentials : MasterKey → Credentials → Bool
  | .locked, _ => false
  | .key secret, creds => creds.password == secret

/-- `ValidUser::from_request_parts` with the master key as auth provider: a
missing `Authorization` header or failing credentials yield 401. -/
def registryAuthStatus (mk : MasterKey) (creds : Option Credentials) :
    Except Nat Credentials :=
  match creds with
  | none => .error 401
  | some c => if checkCredentials mk c then .ok c else .error 401

/-! ## Reverse proxy routing (`src/reverse_proxy.rs`) -/

/-- A published container; only its identity matters for routing. -/
structure PublishedContainerM where
  hostAddr : String
  deriving DecidableEq, Repr

/-- The routing table: path index keyed by `(repository, image)` and domain
index keyed by the lowercased repository. -/
structure RoutingTableM where
  pathMaps : List ((String × String) × PublishedContainerM)
  domainMaps : List (String × PublishedContainerM)
  deriving DecidableEq, Repr

/-- ASCII lowercase (standing in for Rust's `str::to_lowercase`; all
repository names and `Host` values of interest are ASCII). -/
def asciiLower (s : String) : String :=
  String.mk (s.toList.map (fun c =>
    if 'A' ≤ c && c ≤ 'Z' then Char.ofNat (c.toNat + 32) else c))

/-- `Domain::new`: lowercase, and require at least one dot. -/
def domainNew (raw : String) : Option String :=
  let d := asciiLower raw
  if d.toList.contains '.' then some d else none

/-- Index of the last occurrence of a character (Rust `str::rfind`). -/
def lastIdxOf (c : Char) : List Char → Option Nat
  | [] => none
  | x :: xs =>
    match lastIdxOf c xs with
    | some i => some (i + 1)
    | none => if x = c then some 0 else none

/-- Strip a trailing `:port` from a `Host` header value (the source slices at
the last colon if any). -/
def stripPort (host : String) : String :=
  match lastIdxOf ':' host.toList with
  | some i => String.mk (host.toList.take i)
  | none => host

/-- `Destination` (the routing decision of
`RoutingTable::get_destination_uri_from_request`); the proxied target URI is
reduced to the matched container and the injected `X-Script-Name` value. -/
inductive DestinationM
  | reverseProxied (pc : PublishedContainerM) (scriptName : Option String)
  | internal (path : String)
  | notFound
  deriving DecidableEq, Repr

/-- `split_path_base_url`: the first two non-empty path segments name the
image location, the rest re-joins into the forwarded path. -/
def splitSegsAux : List Char → List Char → List String
  | [], acc => [String.mk acc.reverse]
  | c :: rest, acc =>
    if c = '/' then String.mk acc.reverse :: splitSegsAux rest []
    else splitSegsAux rest (c :: acc)

/-- Split a path on `/` (Rust `str::split('/')`). -/
def splitSegs (s : String) : List String :=
  splitSegsAux s.toList []

def splitPathBaseUrl (path : String) : Option ((String × String) × String) :=
  match (splitSegs path).filter (fun seg => seg ≠ "") with
  | repo :: img :: rest =>
    some ((repo, img), rest.foldl (fun acc seg => acc ++ "/" ++ seg) "")
  | _ => none

/-- The domain lookup attempted first by the dispatcher: strip the port from
the `Host` header, build a `Domain`, and consult the domain index. -/
def domainRouteOf (t : RoutingTableM) (host : Option String) :
    Option PublishedContainerM :=
  (host.bind (fun h => domainNew (stripPort h))).bind (lookupA t.domainMaps)

/-- `RoutingTable::get_destination_uri_from_request`: domain routing first;
only when it fails is the `/_rockslide` management path recognised; then
path-based routing; otherwise 404. -/
def getDestination (t : RoutingTableM) (host : Option String)
    (path : String) : DestinationM :=
  match domainRouteOf t host with
  | some pc => .reverseProxied pc none
  | none =>
    if "/_rockslide".toList.isPrefixOf path.toList then .internal path
    else
      match splitPathBaseUrl path with
      | some (loc, _) =>
        match lookupA t.pathMaps loc with
        | some pc => .reverseProxied pc (some ("/" ++ loc.1 ++ "/" ++ loc.2))
        | none => .notFound
      | none => .notFound

/-- The management branch of `route_request`: extract Basic credentials
(absent header → 401), then check them against the master key; on failure
answer 401 with `WWW-Authenticate: basic realm=internal`.  `.ok` means the
request proceeds to the config surface. -/
def internalAuthResult (mk : MasterKey) (creds : Option Credentials) :
    Except (Nat × String) Unit :=
  match creds with
  | none => .error (401, "basic realm=internal")
  | some c =>
    if checkCredentials mk c then .ok ()
    else .error (401, "basic realm=internal")

/-! ## Volume path normalization (`src/container_orchestrator.rs`) -/

/-- `std::path::Component`, Unix flavour (`Prefix` only occurs on Windows,
carried for completeness of the `match`). -/
inductive PathComponentM
  | prefixComp
  | rootDir
  | curDir
  | parentDir
  | normal (s : String)
  deriving DecidableEq, Repr

/-- The component loop of `VolumeDesc::from_path`: any non-`Normal`
component aborts with `None`; `Normal` components accumulate. -/
def volumeDescFromComponents : List PathComponentM → Option (List String)
  | [] => some []
  | c :: rest =>
    match c with
    | .normal s => (volumeDescFromComponents rest).map (s :: ·)
    | _ => none

/-- Classify one non-empty path segment (`.` → `CurDir`, `..` → `ParentDir`,
anything else is a `Normal` name). -/
def segToComp (seg : String) : PathComponentM :=
  if seg = "." then .curDir
  else if seg = ".." then .parentDir
  else .normal seg

/-- Drop every `CurDir` (the `.` segments a path iterator normalizes away). -/
def dropCurDirs (l : List PathComponentM) : List PathComponentM :=
  l.filter (fun c => c ≠ PathComponentM.curDir)

/-- Keep a `CurDir` only when it is the very first component (a relative
path may start with `./`); normalize the rest away. -/
def normalizeCurDirFront (l : List PathComponentM) : List PathComponentM :=
  if l.head? = some PathComponentM.curDir then
    PathComponentM.curDir :: dropCurDirs l.tail
  else dropCurDirs l

/-- Modelled on Rust std's `Path::components` for Unix paths: a leading `/`
becomes `RootDir`; segments split on `/`; empty segments vanish; `.` maps to
`CurDir` but is normalized away except at the start of a relative path;
`..` maps to `ParentDir`. -/
def pathComponentsOf (s : String) : List PathComponentM :=
  let hasRoot := s.toList.head? = some '/'
  let comps := ((splitSegs s).filter (fun seg => seg ≠ "")).map segToComp
  (if hasRoot then [PathComponentM.rootDir] else []) ++
    (if hasRoot then dropCurDirs comps else normalizeCurDirFront comps)

/-- `VolumeDesc::from_path`: a non-relative path first has its root stripped
(`strip_prefix("/")`), then the components are vetted. -/
def volumeDescFromPath (s : String) : Option (List String) :=
  let comps := pathComponentsOf s
  let comps :=
    if comps.head? = some PathComponentM.rootDir then comps.tail else comps
  volumeDescFromComponents comps

/-- The host-side bind-mount paths produced for an image's volume keys
(`ImageConfigJson::volume_iter` + the join against the per-image volume base
in `synchronize_container_state`), as segment lists. -/
def producedHostMounts (base : List String) (keys : List String) :
    List (List String) :=
  (keys.filterMap volumeDescFromPath).map (fun rel => base ++ rel)

/-- One step of lexical path resolution: `.` is skipped, `..` pops the last
segment, and a name is appended. -/
def resolveStep (acc : List String) (seg : String) : List String :=
  if seg = "." then acc
  else if seg = ".." then acc.dropLast
  else acc ++ [seg]

/-- Lexical resolution of a segment path: `.` disappears and `..` pops.  A
path `p` with `resolvePath p = p` contains no traversal. -/
def resolvePath (segs : List String) : List String :=
  segs.foldl resolveStep []

/-! ## Helper lemmas -/

theorem lookupA_eraseA {κ α : Type} [DecidableEq κ] (l : List (κ × α))
    (k k' : κ) :
    lookupA (eraseA k l) k' = if k' = k then none else lookupA l k' := by
  induction l with
  | nil => simp [eraseA, lookupA]
  | cons p rest ih =>
    rcases p with ⟨k₀, v₀⟩
    by_cases h : k₀ = k
    · have e₁ : eraseA k ((k₀, v₀) :: rest) = eraseA k rest := by
        simp [eraseA, h]
      rw [e₁, ih]
      by_cases h' : k' = k
      · simp [h']
      · have h₂ : ¬ k₀ = k' := fun he => h' (he.symm.trans h)
        simp [lookupA, h', h₂]
    · have e₁ : eraseA k ((k₀, v₀) :: rest) = (k₀, v₀) :: eraseA k rest := by
        simp [eraseA, h]
      rw [e₁]
      by_cases h₂ : k₀ = k'
      · have hk : ¬ k' = k := fun he => h (h₂.trans he)
        simp [lookupA, h₂, hk]
      · simp [lookupA, h₂, ih]

theorem lookupA_insertA {κ α : Type} [DecidableEq κ] (l : List (κ × α))
    (k k' : κ) (v : α) :
    lookupA (insertA k v l) k' = if k' = k then some v else lookupA l k' := by
  unfold insertA
  by_cases h : k = k'
  · subst h
    simp [lookupA]
  · have h' : ¬ k' = k := fun he => h he.symm
    simp [lookupA, h, h', lookupA_eraseA]

theorem hexDigitValue_isSome (c : Char) :
    (hexDigitValue c).isSome = isHexDigitChar c := by
  unfold hexDigitValue isHexDigitChar
  by_cases h₁ : (48 ≤ c.toNat && c.toNat ≤ 57) = true
  · simp [h₁]
  · by_cases h₂ : (97 ≤ c.toNat && c.toNat ≤ 102) = true
    · simp [h₁, h₂]
    · by_cases h₃ : (65 ≤ c.toNat && c.toNat ≤ 70) = true
      · simp [h₁, h₂, h₃]
      · simp [h₁, h₂, h₃]

theorem hexDecodePairs_isSome_iff : (cs : List Char) →
    ((hexDecodePairs cs).isSome = true ↔
      (cs.length % 2 = 0 ∧ ∀ c ∈ cs, isHexDigitChar c = true))
  | [] => by simp [hexDecodePairs]
  | [c] => by simp [hexDecodePairs]
  | c₁ :: c₂ :: rest => by
    have ih := hexDecodePairs_isSome_iff rest
    constructor
    · intro h
      rcases hv₁ : hexDigitValue c₁ with _ | hi
      · rw [hexDecodePairs, hv₁] at h
        simp at h
      rcases hv₂ : hexDigitValue c₂ with _ | lo
      · rw [hexDecodePairs, hv₁, hv₂] at h
        simp at h
      rcases hr : hexDecodePairs rest with _ | tl
      · rw [hexDecodePairs, hv₁, hv₂, hr] at h
        simp at h
      have hrest := ih.mp (by rw [hr]; rfl)
      have hd₁ : isHexDigitChar c₁ = true := by
        have := hexDigitValue_isSome c₁
        rw [hv₁] at this
        exact this.symm
      have hd₂ : isHexDigitChar c₂ = true := by
        have := hexDigitValue_isSome c₂
        rw [hv₂] at this
        exact this.symm
      refine ⟨?_, ?_⟩
      · simp only [List.length_cons]
        omega
      · intro c hc
        rcases List.mem_cons.mp hc with hc | hc
        · exact hc ▸ hd₁
        rcases List.mem_cons.mp hc with hc | hc
        · exact hc ▸ hd₂
        · exact hrest.2 c hc
    · rintro ⟨hlen, hall⟩
      have hd₁ : (hexDigitValue c₁).isSome = true := by
        rw [hexDigitValue_isSome]
        exact hall c₁ (by simp)
      have hd₂ : (hexDigitValue c₂).isSome = true := by
        rw [hexDigitValue_isSome]
        exact hall c₂ (by simp)
      have hrest : (hexDecodePairs rest).isSome = true := by
        refine ih.mpr ⟨?_, fun c hc => hall c (by simp [hc])⟩
        simp only [List.length_cons] at hlen
        omega
      rcases hv₁ : hexDigitValue c₁ with _ | hi
      · rw [hv₁] at hd₁; simp at hd₁
      rcases hv₂ : hexDigitValue c₂ with _ | lo
      · rw [hv₂] at hd₂; simp at hd₂
      rcases hr : hexDecodePairs rest with _ | tl
      · rw [hr] at hrest; simp at hrest
      rw [hexDecodePairs, hv₁, hv₂, hr]
      rfl

theorem imageDigestFromStr_isSome (raw : String) :
    (imageDigestFromStr raw).isSome = digestWireForm raw := by
  unfold imageDigestFromStr digestWireForm
  by_cases hlen : raw.toList.length = 71
  · have hlen' : decide (raw.toList.length = 71) = true := decide_eq_true hlen
    rw [if_neg (fun hc => hc hlen), hlen', Bool.true_and]
    by_cases hpre : ("sha256:".toList.isPrefixOf raw.toList) = true
    · rw [if_neg (fun hc => hc hpre), hpre, Bool.true_and]
      have hdrop : (raw.toList.drop 7).length = 64 := by
        rw [List.length_drop, hlen]
      by_cases hall : (raw.toList.drop 7).all isHexDigitChar = true
      · have hs : (hexDecodePairs (raw.toList.drop 7)).isSome = true := by
          refine (hexDecodePairs_isSome_iff _).mpr ⟨by rw [hdrop], ?_⟩
          exact fun c hc => List.all_eq_true.mp hall c hc
        rw [hall, hs]
      · have hs : (hexDecodePairs (raw.toList.drop 7)).isSome = false := by
          rcases hb : (hexDecodePairs (raw.toList.drop 7)).isSome with _ | _
          · rfl
          · exact absurd
              (List.all_eq_true.mpr
                (fun c hc => ((hexDecodePairs_isSome_iff _).mp hb).2 c hc))
              hall
        rw [Bool.not_eq_true] at hall
        rw [hall, hs]
    · rw [if_pos hpre]
      rw [Bool.not_eq_true] at hpre
      rw [hpre, Bool.false_and]
      rfl
  · have hlen' : decide (raw.toList.length = 71) = false :=
      decide_eq_false hlen
    rw [if_pos hlen, hlen', Bool.false_and, Bool.false_and]
    rfl

theorem volumeDescFromComponents_some : ∀ (cs : List PathComponentM)
    (rel : List String), volumeDescFromComponents cs = some rel →
    cs = rel.map PathComponentM.normal
  | [], rel, h => by
    simp only [volumeDescFromComponents, Option.some.injEq] at h
    rw [← h]
    rfl
  | c :: rest, rel, h => by
    cases c with
    | normal s =>
      simp only [volumeDescFromComponents] at h
      rcases hr : volumeDescFromComponents rest with _ | tl
      · rw [hr] at h
        simp at h
      · rw [hr] at h
        simp only [Option.map, Option.some.injEq] at h
        have ih := volumeDescFromComponents_some rest tl hr
        rw [← h, ih]
        rfl
    | prefixComp => simp [volumeDescFromComponents] at h
    | rootDir => simp [volumeDescFromComponents] at h
    | curDir => simp [volumeDescFromComponents] at h
    | parentDir => simp [volumeDescFromComponents] at h

theorem segToComp_eq_normal (seg s : String)
    (h : segToComp seg = .normal s) : seg = s ∧ s ≠ "." ∧ s ≠ ".." := by
  unfold segToComp at h
  by_cases h₁ : seg = "."
  · simp [h₁] at h
  · by_cases h₂ : seg = ".."
    · simp [h₁, h₂] at h
    · simp only [if_neg h₁, if_neg h₂, PathComponentM.normal.injEq] at h
      exact ⟨h, h ▸ h₁, h ▸ h₂⟩

theorem mem_normalizeCurDirFront : ∀ (l : List PathComponentM)
    (c : PathComponentM), c ∈ normalizeCurDirFront l → c ∈ l := by
  intro l c h
  unfold normalizeCurDirFront at h
  by_cases hh : l.head? = some PathComponentM.curDir
  · rw [if_pos hh] at h
    rcases List.mem_cons.mp h with hceq | hmem
    · cases l with
      | nil => exact absurd hh (by simp)
      | cons x rest =>
        have hx : x = PathComponentM.curDir := by
          simpa using hh
        rw [hceq, ← hx]
        exact List.mem_cons_self x rest
    · unfold dropCurDirs at hmem
      exact List.tail_subset _ (List.mem_of_mem_filter hmem)
  · rw [if_neg hh] at h
    unfold dropCurDirs at h
    exact List.mem_of_mem_filter h

theorem normal_mem_pathComponentsOf (key s : String)
    (h : PathComponentM.normal s ∈ pathComponentsOf key) :
    s ≠ "." ∧ s ≠ ".." ∧ s ≠ "" := by
  have hmem : PathComponentM.normal s ∈
      ((splitSegs key).filter (fun seg => seg ≠ "")).map segToComp := by
    simp only [pathComponentsOf] at h
    rcases List.mem_append.mp h with h | h
    · by_cases hr : key.toList.head? = some '/' <;> simp [hr] at h
    · by_cases hr : key.toList.head? = some '/'
      · rw [if_pos hr] at h
        exact List.mem_of_mem_filter h
      · rw [if_neg hr] at h
        exact mem_normalizeCurDirFront _ _ h
  rcases List.mem_map.mp hmem with ⟨seg, hseg, hmap⟩
  have h₁ := segToComp_eq_normal seg s hmap
  refine ⟨h₁.2.1, h₁.2.2, ?_⟩
  have hne : seg ≠ "" := by
    have := (List.mem_filter.mp hseg).2
    exact of_decide_eq_true this
  rw [← h₁.1]
  exact hne

theorem volumeDescFromPath_some (key : String) (rel : List String)
    (hacc : volumeDescFromPath key = some rel) :
    ∀ seg ∈ rel, seg ≠ "." ∧ seg ≠ ".." ∧ seg ≠ "" := by
  simp only [volumeDescFromPath] at hacc
  intro seg hseg
  have hchar := volumeDescFromComponents_some _ rel hacc
  have hmem : PathComponentM.normal seg ∈ pathComponentsOf key := by
    have h₁ : PathComponentM.normal seg ∈
        (if (pathComponentsOf key).head? = some PathComponentM.rootDir then
          (pathComponentsOf key).tail else pathComponentsOf key) := by
      rw [hchar]
      exact List.mem_map_of_mem _ hseg
    by_cases hh :
        (pathComponentsOf key).head? = some PathComponentM.rootDir
    · rw [if_pos hh] at h₁
      exact List.tail_subset _ h₁
    · rw [if_neg hh] at h₁
      exact h₁
  exact normal_mem_pathComponentsOf key seg hmem

theorem foldl_resolveStep_clean : ∀ (l acc : List String),
    (∀ seg ∈ l, seg ≠ "." ∧ seg ≠ "..") →
    l.foldl resolveStep acc = acc ++ l := by
  intro l
  induction l with
  | nil =>
    intro acc _
    simp
  | cons x xs ih =>
    intro acc h
    have hx := h x (List.mem_cons_self x xs)
    have hstep : resolveStep acc x = acc ++ [x] := by
      unfold resolveStep
      rw [if_neg hx.1, if_neg hx.2]
    rw [List.foldl_cons, hstep,
      ih (acc ++ [x]) (fun seg hs => h seg (List.mem_cons_of_mem _ hs))]
    simp

theorem applyOp_blobs (H : Bytes → Bytes) (valid : Bytes → Bool)
    (s : FsState) (op : StoreOp) :
    (applyOp H valid s op).blobs = s.blobs ∨
    ∃ p, (applyOp H valid s op).blobs = insertA (H p) p s.blobs := by
  cases op with
  | opBeginNewUpload id => exact .inl rfl
  | opWriteChunk id chunk =>
    left
    simp only [applyOp, getUploadWriterWrite]
    rcases hl : lookupA s.uploads id with _ | p <;> simp [hl]
  | opFinalizeUpload id d =>
    simp only [applyOp, finalizeUpload]
    rcases hl : lookupA s.uploads id with _ | p
    · left
      simp [hl]
    · by_cases he : H p = d
      · right
        refine ⟨p, ?_⟩
        simp [he]
      · left
        simp [he]
  | opPutManifest repo img ref bytes =>
    left
    simp only [applyOp, putManifest]
    by_cases hv : valid bytes = true
    · cases ref <;> simp [hv]
    · simp [hv]
  | opGetBlobReader d => exact .inl rfl
  | opGetBlobMetadata d => exact .inl rfl
  | opGetManifest repo img ref => exact .inl rfl

/-! ## Claim theorems -/

/-- C10: master-key authentication ignores the username — `check_credentials`
accepts `(u₁, p)` exactly when it accepts `(u₂, p)`, and with a configured
key a password equal to the secret is accepted regardless of the username. -/
theorem check_credentials_ignores_username :
    (∀ (mk : MasterKey) (u₁ u₂ p : String),
       checkCredentials mk ⟨u₁, p⟩ = checkCredentials mk ⟨u₂, p⟩) ∧
    (∀ (k u p : String), checkCredentials (.key k) ⟨u, p⟩ = (p == k)) := by
  constructor
  · intro mk u₁ u₂ p
    cases mk <;> rfl
  · intro k u p
    rfl

/-- C5 (amended): an *unset* `rockslide.master_key` deserializes to `Locked`,
and with `Locked` every credential check fails, so authenticated endpoints
answer 401; but a master key *set to the empty string* deserializes to
`Key("")`, which accepts exactly the credentials whose password is empty. -/
theorem master_key_locked_behaviour :
    masterKeyDeserialize none = .locked ∧
    (∀ c, checkCredentials .locked c = false) ∧
    (∀ creds, registryAuthStatus .locked creds = .error 401) ∧
    (∀ s, masterKeyDeserialize (some s) = .key s) ∧
    (∀ c, checkCredentials (.key "") c = (c.password == "")) := by
  refine ⟨rfl, fun c => rfl, fun creds => ?_, fun s => rfl, fun c => rfl⟩
  cases creds <;> rfl

/-- C5 counterexample: configuring `master_key = ""` does *not* yield
`Locked`; the resulting key accepts a request whose Basic-auth password is
empty, so not every credential is rejected. -/
theorem master_key_empty_string_counterexample :
    masterKeyDeserialize (some "") ≠ .locked ∧
    checkCredentials (masterKeyDeserialize (some "")) ⟨"admin", ""⟩ = true := by
  decide

/-- C9 (amended): parsing yields a `Digest` exactly when the string is
`sha256:` followed by 64 hexadecimal digits in *either* case (the `hex`
crate accepts uppercase digits too); every other string parses as a `Tag`
holding the raw input. -/
theorem reference_parse_digest_form (raw : String) :
    referenceIsDigest (referenceParse raw) = digestWireForm raw ∧
    (digestWireForm raw = false → referenceParse raw = .tag raw) := by
  have h := imageDigestFromStr_isSome raw
  constructor
  · unfold referenceParse
    rcases hi : imageDigestFromStr raw with _ | d
    · rw [hi] at h
      simpa [referenceIsDigest] using h
    · rw [hi] at h
      simpa [referenceIsDigest] using h
  · intro hf
    unfold referenceParse
    rcases hi : imageDigestFromStr raw with _ | d
    · rfl
    · rw [hi, hf] at h
      simp at h

theorem reference_parse_digest_form_witness :
    referenceParse "latest" = .tag "latest" :=
  (reference_parse_digest_form "latest").2 (by decide)

/-- The 71-character string whose 64 hex digits are all uppercase `A`. -/
def upperHexDigestString : String :=
  "sha256:" ++ String.mk (List.replicate 64 'A')

/-- C9 counterexample: a digest string written with uppercase hex digits is
not of the spec's lowercase wire form, yet the code parses it as a digest
rather than a tag. -/
theorem reference_parse_uppercase_counterexample :
    specDigestWireFormLowercase upperHexDigestString = false ∧
    referenceIsDigest (referenceParse upperHexDigestString) = true := by
  decide

/-- C4 (amended): a path under `/_rockslide` reaches the management branch
only when Host-based domain routing found nothing (the dispatcher tries the
domain index first); once there, the whole request is authenticated against
the master key, failing closed with 401 and
`WWW-Authenticate: basic realm=internal`. -/
theorem rockslide_path_routing (t : RoutingTableM) (host : Option String)
    (path : String) (mk : MasterKey) (creds : Option Credentials)
    (hpath : "/_rockslide".toList.isPrefixOf path.toList = true)
    (hdom : domainRouteOf t host = none)
    (hcreds : ∀ c, creds = some c → checkCredentials mk c = false) :
    getDestination t host path = .internal path ∧
    internalAuthResult mk creds = .error (401, "basic realm=internal") := by
  constructor
  · unfold getDestination
    rw [hdom]
    have hpath' : ['/', '_', 'r', 'o', 'c', 'k', 's', 'l', 'i', 'd', 'e'] <+:
        path.data := List.isPrefixOf_iff_prefix.mp hpath
    simp [hpath']
  · unfold internalAuthResult
    cases creds with
    | none => rfl
    | some c =>
      have hc := hcreds c rfl
      simp [hc]

theorem rockslide_path_routing_witness :
    getDestination ⟨[], []⟩ (some "localhost:3000")
        "/_rockslide/config/foo/bar/prod" =
      .internal "/_rockslide/config/foo/bar/prod" ∧
    internalAuthResult .locked (some ⟨"admin", "pw"⟩) =
      .error (401, "basic realm=internal") :=
  rockslide_path_routing ⟨[], []⟩ (some "localhost:3000")
    "/_rockslide/config/foo/bar/prod" .locked (some ⟨"admin", "pw"⟩)
    (by decide) (by decide)
    (fun c hc => by cases hc; rfl)

/-- A published container and routing table used by the C4 counterexample:
one container whose repository is the dotted name `example.com`. -/
def exampleContainer : PublishedContainerM := ⟨"127.0.0.1:9000"⟩

def exampleTable : RoutingTableM :=
  ⟨[(("example.com", "app"), exampleContainer)],
   [("example.com", exampleContainer)]⟩

/-- C4 counterexample: with `Host: example.com` matching the domain index,
a request for `/_rockslide/config/repo/img/prod` is reverse-proxied to the
container instead of taking the management branch — the Host header does
override the `/_rockslide/` path. -/
theorem rockslide_path_host_precedence_counterexample :
    getDestination exampleTable (some "example.com")
        "/_rockslide/config/repo/img/prod" =
      .reverseProxied exampleContainer none ∧
    getDestination exampleTable (some "example.com")
        "/_rockslide/config/repo/img/prod" ≠
      .internal "/_rockslide/config/repo/img/prod" := by
  decide

/-- C2: `finalize_upload` on an existing partial: if the hash of the whole
partial differs from the expected digest, the call fails with
`DigestMismatch` and the store is completely unchanged; if it matches, the
call succeeds, the partial has been renamed away and the bytes sit in
`blobs/<digest>`, with manifests and tags untouched. -/
theorem finalize_upload_contract (H : Bytes → Bytes) (s : FsState) (id : Nat)
    (d p : Bytes) (hup : lookupA s.uploads id = some p) :
    (H p ≠ d →
       (finalizeUpload H s id d).result = .error .digestMismatch ∧
       (finalizeUpload H s id d).state = s) ∧
    (H p = d →
       (finalizeUpload H s id d).result = .ok () ∧
       lookupA (finalizeUpload H s id d).state.blobs d = some p ∧
       lookupA (finalizeUpload H s id d).state.uploads id = none ∧
       (finalizeUpload H s id d).state.manifests = s.manifests ∧
       (finalizeUpload H s id d).state.tags = s.tags) := by
  constructor
  · intro hne
    unfold finalizeUpload
    rw [hup]
    simp [hne]
  · intro heq
    unfold finalizeUpload
    rw [hup]
    simp [heq, lookupA_insertA, lookupA_eraseA]

theorem finalize_upload_contract_witness :
    (finalizeUpload (fun b => b) ⟨[(0, [1, 2])], [], [], []⟩ 0 [9]).result =
        .error .digestMismatch ∧
    (finalizeUpload (fun b => b) ⟨[(0, [1, 2])], [], [], []⟩ 0 [9]).state =
      ⟨[(0, [1, 2])], [], [], []⟩ :=
  (finalize_upload_contract (fun b => b) ⟨[(0, [1, 2])], [], [], []⟩ 0 [9]
    [1, 2] rfl).1 (by decide)

/-- C3 (amended): a PATCH on an existing upload appends the request body to
the partial and answers 202, but the `Range` header it carries is
`0-<bytes in this PATCH body>`: the counter restarts at zero on every PATCH
(it is not the cumulative high-water mark) and equals the byte count rather
than the 0-indexed position of the last byte. -/
theorem upload_add_chunk_range (s : FsState) (id : Nat) (p body : Bytes)
    (hup : lookupA s.uploads id = some p) :
    (uploadAddChunk s id false body).result = .ok ⟨some body.length, id⟩ ∧
    uploadStateStatus ⟨some body.length, id⟩ = 202 ∧
    uploadStateRangeHeader ⟨some body.length, id⟩ =
      some ("0-" ++ toString body.length) ∧
    lookupA (uploadAddChunk s id false body).state.uploads id =
      some (p ++ body) := by
  unfold uploadAddChunk
  rw [hup]
  simp [uploadStateStatus, uploadStateRangeHeader, lookupA_insertA]

theorem upload_add_chunk_range_witness :
    (uploadAddChunk ⟨[(3, [5])], [], [], []⟩ 3 false [6, 7]).result =
        .ok ⟨some 2, 3⟩ ∧
    uploadStateStatus ⟨some 2, 3⟩ = 202 ∧
    uploadStateRangeHeader ⟨some 2, 3⟩ = some "0-2" ∧
    lookupA (uploadAddChunk ⟨[(3, [5])], [], [], []⟩ 3 false [6, 7]).state.uploads
        3 = some [5, 6, 7] :=
  upload_add_chunk_range ⟨[(3, [5])], [], [], []⟩ 3 [5] [6, 7] rfl

/-- C3 counterexample: after a first PATCH of 10 bytes, a second PATCH of
5 bytes answers `Range: 0-5` — were the header the cumulative 0-indexed
inclusive high-water mark of the 15 bytes written, it would read `0-14`. -/
theorem upload_add_chunk_range_counterexample :
    (match (uploadAddChunk
        (uploadAddChunk (beginNewUpload emptyStore 0).state 0 false
          [1, 2, 3, 4, 5, 6, 7, 8, 9, 10]).state 0 false
        [11, 12, 13, 14, 15]).result with
      | .ok u => uploadStateRangeHeader u
      | .error _ => none) = some "0-5" ∧
    some "0-5" ≠ some "0-14" := by
  decide

/-- C6 (amended): `put_manifest` under a digest reference is refused — with
`NotATag` when the bytes validate as a manifest, `InvalidManifest` otherwise
— and the tag tree, blobs and uploads are untouched; but in the `NotATag`
case the manifest bytes have already been written into the manifests
directory under their computed digest before the refusal. -/
theorem put_manifest_digest_ref_refused (H : Bytes → Bytes)
    (valid : Bytes → Bool) (s : FsState) (repo img : String) (dd bytes : Bytes) :
    (valid bytes = true →
       (putManifest H valid s repo img (.digest dd) bytes).result =
           .error .notATag ∧
       (putManifest H valid s repo img (.digest dd) bytes).state.tags =
           s.tags ∧
       (putManifest H valid s repo img (.digest dd) bytes).state.blobs =
           s.blobs ∧
       (putManifest H valid s repo img (.digest dd) bytes).state.uploads =
           s.uploads ∧
       (putManifest H valid s repo img (.digest dd) bytes).state.manifests =
           insertA (H bytes) bytes s.manifests) ∧
    (valid bytes = false →
       putManifest H valid s repo img (.digest dd) bytes =
         ⟨.error .invalidManifest, s⟩) := by
  constructor
  · intro hv
    unfold putManifest
    simp [hv]
  · intro hv
    unfold putManifest
    simp [hv]

theorem put_manifest_digest_ref_refused_witness :
    (putManifest (fun b => b) (fun _ => true) emptyStore "r" "i"
        (.digest [2]) [1]).result = .error .notATag ∧
    (putManifest (fun b => b) (fun _ => true) emptyStore "r" "i"
        (.digest [2]) [1]).state.tags = emptyStore.tags ∧
    (putManifest (fun b => b) (fun _ => true) emptyStore "r" "i"
        (.digest [2]) [1]).state.blobs = emptyStore.blobs ∧
    (putManifest (fun b => b) (fun _ => true) emptyStore "r" "i"
        (.digest [2]) [1]).state.uploads = emptyStore.uploads ∧
    (putManifest (fun b => b) (fun _ => true) emptyStore "r" "i"
        (.digest [2]) [1]).state.manifests = insertA [1] [1] emptyStore.manifests :=
  (put_manifest_digest_ref_refused (fun b => b) (fun _ => true) emptyStore
    "r" "i" [2] [1]).1 rfl

/-- C6 counterexample: a digest-referenced put of valid manifest bytes is
refused with `NotATag`, yet the failed call did change the content store —
the manifests directory now holds the bytes under their digest. -/
theorem put_manifest_digest_ref_stores_counterexample :
    (putManifest (fun b => b) (fun _ => true) emptyStore "repo" "img"
        (.digest [7]) [1, 2]).result = .error .notATag ∧
    (putManifest (fun b => b) (fun _ => true) emptyStore "repo" "img"
        (.digest [7]) [1, 2]).state.manifests ≠ emptyStore.manifests := by
  decide

/-- C7: PUT-ing the same manifest bytes twice under the same tag is
idempotent — both calls return the same computed digest and the tag resolves
to the same manifest contents after either call. -/
theorem put_manifest_idempotent (H : Bytes → Bytes) (valid : Bytes → Bool)
    (s : FsState) (repo img t : String) (bytes : Bytes)
    (hv : valid bytes = true) :
    (putManifest H valid s repo img (.tag t) bytes).result = .ok (H bytes) ∧
    (putManifest H valid
        (putManifest H valid s repo img (.tag t) bytes).state
        repo img (.tag t) bytes).result = .ok (H bytes) ∧
    getManifest (putManifest H valid
        (putManifest H valid s repo img (.tag t) bytes).state
        repo img (.tag t) bytes).state repo img (.tag t) = some bytes ∧
    getManifest (putManifest H valid s repo img (.tag t) bytes).state
        repo img (.tag t) =
      getManifest (putManifest H valid
        (putManifest H valid s repo img (.tag t) bytes).state
        repo img (.tag t) bytes).state repo img (.tag t) := by
  unfold putManifest getManifest
  simp [hv, lookupA_insertA]

theorem put_manifest_idempotent_witness :
    (putManifest (fun b => b) (fun _ => true) emptyStore "r" "i"
        (.tag "latest") [1]).result = .ok [1] ∧
    (putManifest (fun b => b) (fun _ => true)
        (putManifest (fun b => b) (fun _ => true) emptyStore "r" "i"
          (.tag "latest") [1]).state "r" "i" (.tag "latest") [1]).result =
      .ok [1] ∧
    getManifest (putManifest (fun b => b) (fun _ => true)
        (putManifest (fun b => b) (fun _ => true) emptyStore "r" "i"
          (.tag "latest") [1]).state "r" "i" (.tag "latest") [1]).state
        "r" "i" (.tag "latest") = some [1] ∧
    getManifest (putManifest (fun b => b) (fun _ => true) emptyStore "r" "i"
        (.tag "latest") [1]).state "r" "i" (.tag "latest") =
      getManifest (putManifest (fun b => b) (fun _ => true)
        (putManifest (fun b => b) (fun _ => true) emptyStore "r" "i"
          (.tag "latest") [1]).state "r" "i" (.tag "latest") [1]).state
        "r" "i" (.tag "latest") :=
  put_manifest_idempotent (fun b => b) (fun _ => true) emptyStore "r" "i"
    "latest" [1] rfl

/-- C1: digest consistency of the blob store — starting from a consistent
store (as the freshly created empty store is), every storage operation
preserves "each `blobs/<d>` hashes to `<d>`", and, given that the hash is
collision-free, an existing blob's bytes are never changed by any operation
(`finalize_upload` moves only a hash-verified partial into `blobs/`, and a
rename onto an existing blob of the same digest carries identical bytes). -/
theorem blob_digest_invariant (H : Bytes → Bytes) (valid : Bytes → Bool)
    (s : FsState) (op : StoreOp)
    (hinj : ∀ a b, H a = H b → a = b)
    (hcons : BlobConsistent H s) :
    BlobConsistent H (applyOp H valid s op) ∧
    (∀ d c, lookupA s.blobs d = some c →
       lookupA (applyOp H valid s op).blobs d = some c) ∧
    BlobConsistent H emptyStore := by
  have hempty : BlobConsistent H emptyStore := by
    intro d c hc
    simp [emptyStore, lookupA] at hc
  rcases applyOp_blobs H valid s op with hb | ⟨p, hb⟩
  · refine ⟨?_, ?_, hempty⟩
    · intro d c hc
      rw [hb] at hc
      exact hcons d c hc
    · intro d c hc
      rw [hb]
      exact hc
  · refine ⟨?_, ?_, hempty⟩
    · intro d c hc
      rw [hb, lookupA_insertA] at hc
      by_cases hd : d = H p
      · rw [if_pos hd] at hc
        injection hc with hpc
        rw [← hpc, hd]
      · rw [if_neg hd] at hc
        exact hcons d c hc
    · intro d c hc
      rw [hb, lookupA_insertA]
      by_cases hd : d = H p
      · rw [if_pos hd]
        have hc' : H c = H p := by
          rw [hcons d c hc, hd]
        rw [hinj c p hc']
      · rw [if_neg hd]
        exact hc

theorem blob_digest_invariant_witness :
    BlobConsistent (fun b => b)
      (applyOp (fun b => b) (fun _ => true) ⟨[(0, [1])], [], [], []⟩
        (.opFinalizeUpload 0 [1])) ∧
    (∀ d c, lookupA (FsState.blobs ⟨[(0, [1])], [], [], []⟩) d = some c →
       lookupA (applyOp (fun b => b) (fun _ => true) ⟨[(0, [1])], [], [], []⟩
         (.opFinalizeUpload 0 [1])).blobs d = some c) ∧
    BlobConsistent (fun b => b) emptyStore :=
  blob_digest_invariant (fun b => b) (fun _ => true) ⟨[(0, [1])], [], [], []⟩
    (.opFinalizeUpload 0 [1]) (fun a b h => h)
    (fun d c hc => by simp [lookupA] at hc)

/-- C8: volume-mount safety — every host path produced for an image's volume
keys stays under the per-image volume base: it needs no lexical resolution
(no `..`, `.` or empty segment survives normalization) and the base is its
prefix; moreover `VolumeDesc::from_path`'s component loop accepts a
component list exactly when it consists of `Normal` names only, rejecting
any `..`, root, prefix, or current-directory component. -/
theorem volume_mount_safety (base : List String) (keys : List String)
    (hbase : ∀ seg ∈ base, seg ≠ "." ∧ seg ≠ "..") :
    (∀ m ∈ producedHostMounts base keys,
       resolvePath m = m ∧ m.take base.length = base) ∧
    (∀ (cs : List PathComponentM) (rel : List String),
       volumeDescFromComponents cs = some rel →
       cs = rel.map PathComponentM.normal) := by
  constructor
  · intro m hm
    unfold producedHostMounts at hm
    rcases List.mem_map.mp hm with ⟨rel, hrel, hjoin⟩
    rcases List.mem_filterMap.mp hrel with ⟨key, _, hacc⟩
    have hclean := volumeDescFromPath_some key rel hacc
    constructor
    · rw [← hjoin]
      unfold resolvePath
      rw [foldl_resolveStep_clean]
      · simp
      · intro seg hs
        rcases List.mem_append.mp hs with hs | hs
        · exact hbase seg hs
        · exact ⟨(hclean seg hs).1, (hclean seg hs).2.1⟩
    · rw [← hjoin]
      exact List.take_left base rel
  · exact fun cs rel h => volumeDescFromComponents_some cs rel h

theorem volume_mount_safety_witness :
    resolvePath (["volumes", "repo", "img", "prod"] ++ ["data", "files"]) =
      ["volumes", "repo", "img", "prod"] ++ ["data", "files"] ∧
    ((["volumes", "repo", "img", "prod"] : List String) ++
        ["data", "files"]).take
        (["volumes", "repo", "img", "prod"] : List String).length =
      ["volumes", "repo", "img", "prod"] :=
  (volume_mount_safety ["volumes", "repo", "img", "prod"]
      ["/data/files", "/../evil", "../up", "./x"] (by decide)).1
    (["volumes", "repo", "img", "prod"] ++ ["data", "files"]) (by decide)

end Rockslide
